import Mathlib

/-!
go-server: the CRUD handlers of `main.go` over a key-value store

A shallow embedding of `src/main.go`.  The five route handlers registered by
`setUpRouter` are written as one Lean function over an explicit server state
(the response writer of the request, the contents of the Redis store, the
trace of store calls, and what the handlers print), in a small state monad
with process exit, so that every statement of the Go source has a line here.

The collaborators the handlers call are modelled from their documented
behaviour:

* `encoding/json`: `jsonMarshal` and `jsonUnmarshal` are the encoder and the
  decoder specialised to the `User` struct (strings escaped as Go escapes
  them, the full JSON grammar on the way in);
* `go-redis`: a store is a map from keys to string values; one
  `RedisClient` value says whether the store call of the request fails;
* `gin`: `ctx.BindJSON`, `ctx.JSON` and the response written when a handler
  returns;
* `uuid.NewString`: the identifier it mints is an input of the router.

Go strings are Lean `String`s: sequences of Unicode scalar values, which is
what the JSON decoder produces for every body.
-/

set_option linter.dupNamespace false

namespace GoServer

/-! ## Data model -/

/-- User record of `main.go` (lines 15-19), with JSON keys `name`, `email`
and `profileUrl`. -/
structure User where
  name : String
  email : String
  profileUrl : String
  deriving DecidableEq

/-- Go `error` values met by the handlers: the sentinel `redis.Nil`, or any
other error with the text its `Error()` method returns. -/
inductive Error where
  | redisNil
  | other (msg : String)
  deriving DecidableEq

/-- Method `Error()` of an error value; `redis.Nil` reads `redis: nil`. -/
def Error.Error : Error → String
  | Error.redisNil => "redis: nil"
  | Error.other msg => msg

/-- Errors of `json.Unmarshal`: a `SyntaxError` (input is not one JSON value)
or an `UnmarshalTypeError` (a JSON value that does not fit the Go type). -/
inductive JsonError where
  | syntaxError
  | unmarshalTypeError
  deriving DecidableEq

/-! ## `json.Marshal` on a `User` -/

/-- Lower-case hexadecimal digit, the table `hex` of the encoder. -/
def hexDigit (n : Nat) : Char :=
  ['0', '1', '2', '3', '4', '5', '6', '7', '8', '9', 'a', 'b', 'c', 'd', 'e', 'f'].getD n '0'

/-- Encoding of one character inside a JSON string, as `appendString` of
`encoding/json` does with HTML escaping on: the quote and the backslash get a
backslash, `\b \f \n \r \t` their short escapes, other control characters
and `<`, `>`, `&` become `\u00XX`, U+2028 and U+2029 become `\u202X`, and
every other character is copied. -/
def appendRune (c : Char) : List Char :=
  let b := c.toNat
  if b = 0x5c ∨ b = 0x22 then [Char.ofNat 0x5c, c]
  else if b = 0x08 then [Char.ofNat 0x5c, 'b']
  else if b = 0x0c then [Char.ofNat 0x5c, 'f']
  else if b = 0x0a then [Char.ofNat 0x5c, 'n']
  else if b = 0x0d then [Char.ofNat 0x5c, 'r']
  else if b = 0x09 then [Char.ofNat 0x5c, 't']
  else if b < 0x20 ∨ b = 0x3c ∨ b = 0x3e ∨ b = 0x26 then
    [Char.ofNat 0x5c, 'u', '0', '0', hexDigit (b >>> 4), hexDigit (b &&& 0xF)]
  else if b = 0x2028 ∨ b = 0x2029 then
    [Char.ofNat 0x5c, 'u', '2', '0', '2', hexDigit (b &&& 0xF)]
  else [c]

/-- JSON string literal for `src`: the escaped characters between two quotes. -/
def appendString (src : List Char) : List Char :=
  Char.ofNat 0x22 :: (src.flatMap appendRune ++ [Char.ofNat 0x22])

/-- Text `json.Marshal` produces for a `User`: an object with the three keys
in declaration order. -/
def encodeUser (user : User) : List Char :=
  Char.ofNat 0x7b :: (appendString "name".toList ++ ':' :: (appendString user.name.toList ++
    ',' :: (appendString "email".toList ++ ':' :: (appendString user.email.toList ++
    ',' :: (appendString "profileUrl".toList ++ ':' :: (appendString user.profileUrl.toList ++
    [Char.ofNat 0x7d]))))))

/-- Call `json.Marshal(user)`: the encoded bytes and a nil error (a struct of
three strings always encodes). -/
def jsonMarshal (user : User) : String × Option Error :=
  (String.mk (encodeUser user), none)

/-! ## `json.Unmarshal` into a `User` -/

/-- Piece of a scanned JSON string: a character (literal, or from a short
escape) or the code unit of a `\uXXXX` escape. -/
inductive StrItem where
  | lit (c : Char)
  | esc (n : Nat)
  deriving DecidableEq

/-- Value of a hexadecimal digit, either case. -/
def hexVal (c : Char) : Option Nat :=
  let b := c.toNat
  if 0x30 ≤ b ∧ b ≤ 0x39 then some (b - 0x30)
  else if 0x61 ≤ b ∧ b ≤ 0x66 then some (b - 0x61 + 10)
  else if 0x41 ≤ b ∧ b ≤ 0x46 then some (b - 0x41 + 10)
  else none

/-- Code unit written by four hexadecimal digits (`getu4` of the decoder). -/
def getu4 (a b c d : Char) : Option Nat :=
  match hexVal a, hexVal b, hexVal c, hexVal d with
  | some x, some y, some z, some w => some (((x * 16 + y) * 16 + z) * 16 + w)
  | _, _, _, _ => none

/-- Character denoted by a one-letter escape, when the letter is one. -/
def simpleEscape (e : Char) : Option Char :=
  let b := e.toNat
  if b = 0x22 ∨ b = 0x5c ∨ b = 0x2f then some e
  else if b = 0x62 then some (Char.ofNat 0x08)
  else if b = 0x66 then some (Char.ofNat 0x0c)
  else if b = 0x6e then some (Char.ofNat 0x0a)
  else if b = 0x72 then some (Char.ofNat 0x0d)
  else if b = 0x74 then some (Char.ofNat 0x09)
  else none

/-- Scan of a JSON string after its opening quote: the pieces up to the
closing quote and the input that follows it, or `none` when the string is not
well formed (unterminated, a raw control character, a bad escape). -/
def scanString : List Char → Option (List StrItem × List Char)
  | [] => none
  | c :: cs =>
    if c.toNat = 0x22 then some ([], cs)
    else if c.toNat = 0x5c then
      match cs with
      | [] => none
      | e :: cs1 =>
        if e.toNat = 0x75 then
          match cs1 with
          | a :: b :: c2 :: d :: cs2 =>
            match getu4 a b c2 d with
            | some n => (scanString cs2).map (fun r => (StrItem.esc n :: r.1, r.2))
            | none => none
          | _ => none
        else
          match simpleEscape e with
          | some x => (scanString cs1).map (fun r => (StrItem.lit x :: r.1, r.2))
          | none => none
    else if c.toNat < 0x20 then none
    else (scanString cs).map (fun r => (StrItem.lit c :: r.1, r.2))

/-- High (leading) UTF-16 surrogate. -/
def isHighSurrogate (n : Nat) : Bool := 0xd800 ≤ n && n < 0xdc00

/-- Low (trailing) UTF-16 surrogate. -/
def isLowSurrogate (n : Nat) : Bool := 0xdc00 ≤ n && n < 0xe000

/-- Decoded text of a scanned string (`unquote` of the decoder): a high
surrogate escape followed at once by a low one is their code point, any other
surrogate escape is U+FFFD, every other escape its character. -/
def unquote : List StrItem → List Char
  | [] => []
  | StrItem.lit c :: rest => c :: unquote rest
  | StrItem.esc hi :: StrItem.esc lo :: rest =>
    if isHighSurrogate hi && isLowSurrogate lo then
      Char.ofNat ((hi - 0xd800) * 0x400 + (lo - 0xdc00) + 0x10000) :: unquote rest
    else if isHighSurrogate hi || isLowSurrogate hi then
      Char.ofNat 0xfffd :: unquote (StrItem.esc lo :: rest)
    else Char.ofNat hi :: unquote (StrItem.esc lo :: rest)
  | StrItem.esc n :: rest =>
    if isHighSurrogate n || isLowSurrogate n then Char.ofNat 0xfffd :: unquote rest
    else Char.ofNat n :: unquote rest

/-- JSON value as the decoder reads it; a number keeps its literal text. -/
inductive JValue where
  | null
  | bool (b : Bool)
  | number (lit : List Char)
  | string (s : String)
  | array (items : List JValue)
  | object (members : List (String × JValue))

/-- JSON white space: space, tab, carriage return, line feed. -/
def isSpace (c : Char) : Bool :=
  c.toNat = 0x20 || c.toNat = 0x09 || c.toNat = 0x0d || c.toNat = 0x0a

/-- Input after its leading white space. -/
def skipSpace : List Char → List Char
  | [] => []
  | c :: cs => if isSpace c then skipSpace cs else c :: cs

/-- Decimal digit. -/
def isDigit (c : Char) : Bool := 0x30 ≤ c.toNat && c.toNat ≤ 0x39

/-- One or more digits. -/
def scanDigits (cs : List Char) : Option (List Char × List Char) :=
  match cs.span isDigit with
  | ([], _) => none
  | (ds, rest) => some (ds, rest)

/-- Optional exponent of a number: `e` or `E`, an optional sign, digits. -/
def scanExp (cs : List Char) : Option (List Char × List Char) :=
  match cs with
  | e :: rest =>
    if e.toNat = 0x65 ∨ e.toNat = 0x45 then
      match rest with
      | sg :: rest1 =>
        if sg.toNat = 0x2b ∨ sg.toNat = 0x2d then
          (scanDigits rest1).map (fun r => (e :: sg :: r.1, r.2))
        else (scanDigits rest).map (fun r => (e :: r.1, r.2))
      | [] => none
    else some ([], cs)
  | [] => some ([], cs)

/-- Optional fraction of a number: a dot and digits. -/
def scanFrac (cs : List Char) : Option (List Char × List Char) :=
  match cs with
  | dot :: rest =>
    if dot.toNat = 0x2e then (scanDigits rest).map (fun r => (dot :: r.1, r.2))
    else some ([], cs)
  | [] => some ([], cs)

/-- Integer part of a number: a lone `0`, or a non-zero digit and digits. -/
def scanInt (cs : List Char) : Option (List Char × List Char) :=
  match cs with
  | d :: rest =>
    if d.toNat = 0x30 then some ([d], rest)
    else if isDigit d then some (d :: (rest.span isDigit).1, (rest.span isDigit).2)
    else none
  | [] => none

/-- Optional minus sign of a number. -/
def scanSign (cs : List Char) : List Char × List Char :=
  match cs with
  | m :: rest => if m.toNat = 0x2d then ([m], rest) else ([], cs)
  | [] => ([], cs)

/-- Number literal: optional minus, integer part, optional fraction and
exponent. -/
def scanNumber (cs : List Char) : Option (List Char × List Char) :=
  match scanInt (scanSign cs).2 with
  | none => none
  | some (int, r1) =>
    match scanFrac r1 with
    | none => none
    | some (frac, r2) =>
      match scanExp r2 with
      | none => none
      | some (exp, r3) => some ((scanSign cs).1 ++ int ++ frac ++ exp, r3)

/-- Input after the literal `lit`, when the input starts with it. -/
def stripLiteral : List Char → List Char → Option (List Char)
  | [], cs => some cs
  | _ :: _, [] => none
  | l :: lit, c :: cs => if l = c then stripLiteral lit cs else none

/-- Deepest nesting of arrays and objects the decoder accepts. -/
def maxNestingDepth : Nat := 10000

mutual
/-- One JSON value at the head of the input (which starts at the value), and
the input after it.  `fuel` bounds the recursion; `depth` counts the arrays
and objects that are open. -/
def parseValue : Nat → Nat → List Char → Option (JValue × List Char)
  | 0, _, _ => none
  | fuel + 1, depth, cs =>
    match cs with
    | [] => none
    | c :: rest =>
      if c.toNat = 0x22 then
        (scanString rest).map (fun r => (JValue.string (String.mk (unquote r.1)), r.2))
      else if c.toNat = 0x7b then
        if maxNestingDepth < depth + 1 then none
        else
          match skipSpace rest with
          | [] => none
          | d :: rest1 =>
            if d.toNat = 0x7d then some (JValue.object [], rest1)
            else (parseMembers fuel (depth + 1) (d :: rest1)).map
              (fun r => (JValue.object r.1, r.2))
      else if c.toNat = 0x5b then
        if maxNestingDepth < depth + 1 then none
        else
          match skipSpace rest with
          | [] => none
          | d :: rest1 =>
            if d.toNat = 0x5d then some (JValue.array [], rest1)
            else (parseElems fuel (depth + 1) (d :: rest1)).map
              (fun r => (JValue.array r.1, r.2))
      else if c.toNat = 0x74 then
        (stripLiteral ['t', 'r', 'u', 'e'] cs).map (fun r => (JValue.bool true, r))
      else if c.toNat = 0x66 then
        (stripLiteral ['f', 'a', 'l', 's', 'e'] cs).map (fun r => (JValue.bool false, r))
      else if c.toNat = 0x6e then
        (stripLiteral ['n', 'u', 'l', 'l'] cs).map (fun r => (JValue.null, r))
      else (scanNumber cs).map (fun r => (JValue.number r.1, r.2))
/-- Elements of a non-empty array, from the first element to the closing
bracket. -/
def parseElems : Nat → Nat → List Char → Option (List JValue × List Char)
  | 0, _, _ => none
  | fuel + 1, depth, cs =>
    match parseValue fuel depth cs with
    | none => none
    | some (v, rest) =>
      match skipSpace rest with
      | [] => none
      | c :: rest1 =>
        if c.toNat = 0x2c then
          (parseElems fuel depth (skipSpace rest1)).map (fun r => (v :: r.1, r.2))
        else if c.toNat = 0x5d then some ([v], rest1)
        else none
/-- Members of a non-empty object, from the first key to the closing brace. -/
def parseMembers : Nat → Nat → List Char → Option (List (String × JValue) × List Char)
  | 0, _, _ => none
  | fuel + 1, depth, cs =>
    match cs with
    | [] => none
    | q :: rest =>
      if q.toNat = 0x22 then
        match scanString rest with
        | none => none
        | some (key, rest1) =>
          match skipSpace rest1 with
          | [] => none
          | colon :: rest2 =>
            if colon.toNat = 0x3a then
              match parseValue fuel depth (skipSpace rest2) with
              | none => none
              | some (v, rest3) =>
                match skipSpace rest3 with
                | [] => none
                | c :: rest4 =>
                  if c.toNat = 0x2c then
                    (parseMembers fuel depth (skipSpace rest4)).map
                      (fun r => ((String.mk (unquote key), v) :: r.1, r.2))
                  else if c.toNat = 0x7d then some ([(String.mk (unquote key), v)], rest4)
                  else none
            else none
      else none
end

/-- Fields of `User`. -/
inductive Field where
  | name
  | email
  | profileUrl
  deriving DecidableEq

/-- Upper-casing of an ASCII letter; every other character is kept. -/
def foldByte (c : Char) : Char :=
  if 0x61 ≤ c.toNat ∧ c.toNat ≤ 0x7a then Char.ofNat (c.toNat - 0x20) else c

/-- Case folding of an object key.  The decoder also folds the two non-ASCII
characters that fold to `K` and `S`; no field name of `User` has either
letter, so the fields found are the same. -/
def foldName (key : List Char) : List Char := key.map foldByte

/-- Field of `User` an object key names: the match ignores case. -/
def fieldOf (key : String) : Option Field :=
  let k := foldName key.toList
  if k = foldName "name".toList then some Field.name
  else if k = foldName "email".toList then some Field.email
  else if k = foldName "profileUrl".toList then some Field.profileUrl
  else none

/-- Assignment to one field. -/
def User.set (user : User) (f : Field) (s : String) : User :=
  match f with
  | Field.name => { user with name := s }
  | Field.email => { user with email := s }
  | Field.profileUrl => { user with profileUrl := s }

/-- Decoding of one object member into the struct: a string is stored in the
field its key names, `null` and unknown keys change nothing, any other value
for a field records a type error (the first one is kept) and decoding goes
on. -/
def storeMember (st : User × Option JsonError) (m : String × JValue) :
    User × Option JsonError :=
  match fieldOf m.1 with
  | none => st
  | some f =>
    match m.2 with
    | JValue.string s => (st.1.set f s, st.2)
    | JValue.null => st
    | _ => (st.1, if st.2.isSome then st.2 else some JsonError.unmarshalTypeError)

/-- Call `json.Unmarshal(data, &user)`: the struct after the call and the
error.  The input must be exactly one JSON value between optional white
space; an object is decoded member by member, `null` changes nothing, any
other value is a type error.  The fuel `2 * length + 2` is never exhausted:
a value of `n` characters needs at most `2 * n` nested calls. -/
def jsonUnmarshal (data : String) (user : User) : User × Option JsonError :=
  match parseValue (2 * data.length + 2) 0 (skipSpace data.toList) with
  | none => (user, some JsonError.syntaxError)
  | some (v, rest) =>
    if skipSpace rest ≠ [] then (user, some JsonError.syntaxError)
    else
      match v with
      | JValue.object members => members.foldl storeMember (user, none)
      | JValue.null => (user, none)
      | _ => (user, some JsonError.unmarshalTypeError)

/-! ## The store and the Redis client -/

/-- Contents of the Redis database the client talks to: string keys to
string values, no expiry (the handlers pass a zero TTL). -/
def Store : Type := String → Option String

/-- Store after `SET key value`. -/
def Store.set (store : Store) (key value : String) : Store :=
  fun k => if k = key then some value else store k

/-- Store after `DEL key`. -/
def Store.del (store : Store) (key : String) : Store :=
  fun k => if k = key then none else store k

/-- Call made on the store client. -/
inductive StoreCall where
  | set (key value : String)
  | get (key : String)
  | del (key : String)
  deriving DecidableEq

/-! ## gin: the response writer and the handler monad -/

/-- Value of a field of a `gin.H` map. -/
inductive Value where
  | str (s : String)
  | user (u : User)
  deriving DecidableEq

/-- Payload handed to `ctx.JSON`: a `gin.H` map (its entries in source
order) or a `User` struct. -/
inductive Body where
  | H (fields : List (String × Value))
  | user (u : User)
  deriving DecidableEq

/-- Operand of `fmt.Println`. -/
inductive Arg where
  | str (s : String)
  | err (e : Error)
  | jsonErr (e : JsonError)
  | user (u : User)
  deriving DecidableEq

/-- Response writer of a `gin.Context`: the status code, whether the header
has been written, and the payloads written so far. -/
structure Ctx where
  status : Nat
  written : Bool
  body : List Body
  deriving DecidableEq

/-- State a handler runs in: the response writer of the request, the store,
the store calls made and the lines printed by the handler. -/
structure State where
  ctx : Ctx
  store : Store
  calls : List StoreCall
  stdout : List (List Arg)
  stderr : List String

/-- Outcome of running handler code: it returned, or the process exited
(`os.Exit`) with the state reached. -/
inductive Result (α : Type) where
  | ok (a : α) (st : State)
  | exit (code : Nat) (st : State)

/-- Handler code: a state transformer that may exit the process. -/
def Handler (α : Type) : Type := State → Result α

instance : Monad Handler where
  pure a := fun st => Result.ok a st
  bind m f := fun st =>
    match m st with
    | Result.ok a st1 => f a st1
    | Result.exit code st1 => Result.exit code st1

/-- Constant `http.StatusOK`. -/
def StatusOK : Nat := 200
/-- Constant `http.StatusCreated`. -/
def StatusCreated : Nat := 201
/-- Constant `http.StatusBadRequest`. -/
def StatusBadRequest : Nat := 400
/-- Constant `http.StatusNotFound`. -/
def StatusNotFound : Nat := 404
/-- Constant `http.StatusInternalServerError`. -/
def StatusInternalServerError : Nat := 500

/-- Status update of gin's response writer: once the header is written the
status can no longer change. -/
def Ctx.WriteHeader (ctx : Ctx) (code : Nat) : Ctx :=
  if ctx.written then ctx else { ctx with status := code }

/-- Statuses that carry a body (not 1xx, 204, 304). -/
def bodyAllowedForStatus (status : Nat) : Bool :=
  !((100 ≤ status && status ≤ 199) || status = 204 || status = 304)

/-- Call `ctx.JSON(code, obj)`: sets the status, writes the header and the
payload. -/
def ctxJSON (code : Nat) (obj : Body) : Handler Unit :=
  fun st =>
    Result.ok () { st with ctx :=
      { status := (st.ctx.WriteHeader code).status, written := true,
        body := if bodyAllowedForStatus code then st.ctx.body ++ [obj] else st.ctx.body } }

/-- Call `ctx.BindJSON(&user)`.  `body` is the request body as the binder
decodes it: the `User` it holds, or the decoding error.  On an error gin
aborts the request with status 400 (header written) and returns the error. -/
def ctxBindJSON (body : Except Error User) (user : User) : Handler (User × Option Error) :=
  fun st =>
    match body with
    | Except.ok bound => Result.ok (bound, none) st
    | Except.error err =>
      Result.ok (user, some err) { st with ctx :=
        { status := (st.ctx.WriteHeader StatusBadRequest).status, written := true,
          body := st.ctx.body } }

/-- Call `fmt.Println(args...)`: one line on standard output. -/
def Println (args : List Arg) : Handler Unit :=
  fun st => Result.ok () { st with stdout := st.stdout ++ [args] }

/-- Call `log.Fatal(err)`: the message goes to standard error and the process
exits with status 1; nothing after the call runs. -/
def logFatal (err : Error) : Handler Unit :=
  fun st => Result.exit 1 { st with stderr := st.stderr ++ [err.Error] }

/-- Store client as one request sees it: `fault` is the error its store call
reports (network, server), `none` when the call goes through.  A call that
fails leaves the store as it was. -/
structure RedisClient where
  fault : Option Error

/-- Call `redisClient.Set(context, key, value, 0).Err()`. -/
def RedisClient.Set (redisClient : RedisClient) (key value : String) : Handler (Option Error) :=
  fun st =>
    match redisClient.fault with
    | some err => Result.ok (some err) { st with calls := st.calls ++ [StoreCall.set key value] }
    | none =>
      Result.ok none { st with store := st.store.set key value,
                               calls := st.calls ++ [StoreCall.set key value] }

/-- Call `redisClient.Get(context, key).Result()`: the value and a nil error,
or the empty string and an error, which is `redis.Nil` when the key is
absent. -/
def RedisClient.Get (redisClient : RedisClient) (key : String) :
    Handler (String × Option Error) :=
  fun st =>
    match redisClient.fault with
    | some err => Result.ok ("", some err) { st with calls := st.calls ++ [StoreCall.get key] }
    | none =>
      match st.store key with
      | some val => Result.ok (val, none) { st with calls := st.calls ++ [StoreCall.get key] }
      | none =>
        Result.ok ("", some Error.redisNil) { st with calls := st.calls ++ [StoreCall.get key] }

/-- Call `redisClient.Del(context, key).Result()`: the number of keys removed
and a nil error, or an error. -/
def RedisClient.Del (redisClient : RedisClient) (key : String) : Handler (Nat × Option Error) :=
  fun st =>
    match redisClient.fault with
    | some err => Result.ok (0, some err) { st with calls := st.calls ++ [StoreCall.del key] }
    | none =>
      Result.ok (if (st.store key).isSome then 1 else 0, none)
        { st with store := st.store.del key, calls := st.calls ++ [StoreCall.del key] }

/-! ## The router -/

/-- Request matched by one of the five routes.  A body is given as
`ctx.BindJSON` decodes it; `id` is the `:id` path parameter. -/
inductive Request where
  | ping
  | create (body : Except Error User)
  | read (id : String)
  | update (id : String) (body : Except Error User)
  | delete (id : String)

/-- Function `setUpRouter` of `main.go` (lines 31-173): the handler each
route runs.  `uuidNewString` is the identifier `uuid.NewString()` returns
during the request. -/
def setUpRouter (redisClient : RedisClient) (uuidNewString : String) : Request → Handler Unit
  -- r.GET("/ping", ...), lines 37-41
  | Request.ping =>
    ctxJSON StatusOK (Body.H [("message", Value.str "pong")])
  -- r.POST("/user/create", ...), lines 44-81
  | Request.create body => do
    let user : User := ⟨"", "", ""⟩
    let (user, err) ← ctxBindJSON body user
    if let some err := err then
      logFatal err
      ctxJSON StatusBadRequest (Body.H [("error", Value.str err.Error)])
      return
    let newUUID := uuidNewString
    let (jsonData, err) := jsonMarshal user
    if let some err := err then
      Println [Arg.str "Error marshalling user:", Arg.err err]
      return
    let err ← redisClient.Set newUUID jsonData
    if let some err := err then
      Println [Arg.str "Error inserting user in Redis:", Arg.err err]
      ctxJSON StatusInternalServerError (Body.H [("message", Value.str err.Error)])
      return
    ctxJSON StatusCreated (Body.H [("sid", Value.str newUUID), ("name", Value.str user.name),
      ("email", Value.str user.email), ("profileUrl", Value.str user.profileUrl)])
  -- r.GET("/user/:id", ...), lines 84-119
  | Request.read id => do
    let user : User := ⟨"", "", ""⟩
    let userId := id
    let (val, err) ← redisClient.Get userId
    if let some _ := err then
      Println [Arg.str "User not found", Arg.str userId]
      ctxJSON StatusNotFound (Body.H [("message", Value.str ("User " ++ userId ++ " Not found"))])
      return
    if err = some Error.redisNil then
      ctxJSON StatusNotFound (Body.H [("message", Value.str ("User " ++ userId ++ "Not found"))])
    else
      let (user, err) := jsonUnmarshal val user
      if let some err := err then
        Println [Arg.str "Error unmarshalling user: ", Arg.jsonErr err]
        return
      ctxJSON StatusOK (Body.H [("sid", Value.str userId), ("data", Value.user user)])
  -- r.PUT("/user/update/:id", ...), lines 122-151
  | Request.update id body => do
    let userId := id
    let user : User := ⟨"", "", ""⟩
    let (user, err) ← ctxBindJSON body user
    if let some err := err then
      logFatal err
      ctxJSON StatusOK (Body.H [("message", Value.str err.Error)])
      return
    let (userData, err) := jsonMarshal user
    if let some _ := err then
      Println [Arg.str "Error Marshalling user: ", Arg.user user]
      return
    let err ← redisClient.Set userId userData
    if let some _ := err then
      Println [Arg.str "Unable to update redis value"]
    ctxJSON StatusOK (Body.user user)
  -- r.DELETE("/user/:id", ...), lines 154-169
  | Request.delete id => do
    let userId := id
    let (_, err) ← redisClient.Del userId
    if let some err := err then
      Println [Arg.str "Error deleting key:", Arg.err err]
      return
    Println [Arg.str "User deleted: ", Arg.str userId]
    ctxJSON StatusOK (Body.H [("message", Value.str "User removed successfully")])

/-- HTTP response a client receives: status and payloads. -/
structure Response where
  status : Nat
  body : List Body
  deriving DecidableEq

/-- State reached by the request. -/
def Result.state : Result Unit → State
  | Result.ok _ st => st
  | Result.exit _ st => st

/-- Response the client receives.  When the handler returns, gin sends what
the response writer holds (status 200 and no body if the handler wrote
nothing); when the process exited there is no response. -/
def Result.response : Result Unit → Option Response
  | Result.ok _ st => some ⟨st.ctx.status, st.ctx.body⟩
  | Result.exit _ _ => none

/-- One request served on a store: the handler of the route runs on a fresh
response writer (status 200, nothing written). -/
def serve (redisClient : RedisClient) (uuidNewString : String) (req : Request) (store : Store) :
    Result Unit :=
  setUpRouter redisClient uuidNewString req
    { ctx := { status := 200, written := false, body := [] }, store := store, calls := [],
      stdout := [], stderr := [] }

/-! ## Names used in the statements -/

/-- Piece `scanString` reads back from the encoding of one character. -/
def itemOf (c : Char) : StrItem :=
  let b := c.toNat
  if b = 0x5c ∨ b = 0x22 ∨ b = 0x08 ∨ b = 0x0c ∨ b = 0x0a ∨ b = 0x0d ∨ b = 0x09 then StrItem.lit c
  else if b < 0x20 ∨ b = 0x3c ∨ b = 0x3e ∨ b = 0x26 ∨ b = 0x2028 ∨ b = 0x2029 then StrItem.esc b
  else StrItem.lit c

/-- Payload of a successful create: the identifier and the three fields. -/
def createdBody (sid : String) (u : User) : Body :=
  Body.H [("sid", Value.str sid), ("name", Value.str u.name),
    ("email", Value.str u.email), ("profileUrl", Value.str u.profileUrl)]

/-- Payload of a successful read: the identifier and the stored record. -/
def readBody (sid : String) (u : User) : Body :=
  Body.H [("sid", Value.str sid), ("data", Value.user u)]

/-- Payload of the not-found response of the read handler (line 95). -/
def notFoundBody (id : String) : Body :=
  Body.H [("message", Value.str ("User " ++ id ++ " Not found"))]

/-- Payload of the second not-found branch of the read handler (line 102). -/
def nilBranchBody (id : String) : Body :=
  Body.H [("message", Value.str ("User " ++ id ++ "Not found"))]

/-- Payload of the delete handler. -/
def removedBody : Body :=
  Body.H [("message", Value.str "User removed successfully")]

/-- Payload of the health check. -/
def pongBody : Body :=
  Body.H [("message", Value.str "pong")]

/-- Keys of the JSON object a payload is rendered to. -/
def Body.keys : Body → List String
  | Body.H fields => fields.map Prod.fst
  | Body.user _ => ["name", "email", "profileUrl"]

/-- Store with no key. -/
def emptyStore : Store := fun _ => none

/-- Record of the scenario of the specification. -/
def ann : User := ⟨"Ann", "ann@x.com", "http://x.com/ann"⟩

/-! ## The decoder reads back what the encoder writes -/

theorem hexVal_hexDigit : ∀ k, k < 16 → hexVal (hexDigit k) = some k := by
  decide

theorem getu4_low (b : Nat) (hb : b < 256) :
    getu4 '0' '0' (hexDigit (b >>> 4)) (hexDigit (b &&& 0xF)) = some b := by
  have h3 : b &&& 0xF = b % 16 := Nat.and_pow_two_sub_one_eq_mod b 4
  have h4 : b >>> 4 = b / 16 := by rw [Nat.shiftRight_eq_div_pow]
  have h1 : b / 16 < 16 := by omega
  have h2 : b % 16 < 16 := by omega
  have z : hexVal '0' = some 0 := by decide
  rw [h3, h4]
  simp only [getu4, z, hexVal_hexDigit _ h1, hexVal_hexDigit _ h2]
  congr 1
  omega

theorem getu4_202 (b : Nat) (hb : b = 0x2028 ∨ b = 0x2029) :
    getu4 '2' '0' '2' (hexDigit (b &&& 0xF)) = some b := by
  rcases hb with h | h <;> subst h <;> decide

theorem bs_toNat : (Char.ofNat 0x5c).toNat = 0x5c := by decide
theorem u_toNat : 'u'.toNat = 0x75 := by decide

theorem scanString_cons (c : Char) (cs : List Char) :
    scanString (c :: cs) =
      if c.toNat = 0x22 then some ([], cs)
      else if c.toNat = 0x5c then
        match cs with
        | [] => none
        | e :: cs1 =>
          if e.toNat = 0x75 then
            match cs1 with
            | a :: b :: c2 :: d :: cs2 =>
              match getu4 a b c2 d with
              | some n => (scanString cs2).map (fun r => (StrItem.esc n :: r.1, r.2))
              | none => none
            | _ => none
          else
            match simpleEscape e with
            | some x => (scanString cs1).map (fun r => (StrItem.lit x :: r.1, r.2))
            | none => none
      else if c.toNat < 0x20 then none
      else (scanString cs).map (fun r => (StrItem.lit c :: r.1, r.2)) := by
  rcases cs with _ | ⟨e, _ | ⟨a, _ | ⟨b, _ | ⟨c2, _ | ⟨d, cs2⟩⟩⟩⟩⟩ <;> rfl

theorem scanString_quote (c : Char) (cs : List Char) (h : c.toNat = 0x22) :
    scanString (c :: cs) = some ([], cs) := by
  simp [scanString_cons, h]

theorem scanString_simple (bs e x : Char) (cs : List Char) (h : bs.toNat = 0x5c)
    (he : e.toNat ≠ 0x75) (hx : simpleEscape e = some x) :
    scanString (bs :: e :: cs) =
      (scanString cs).map (fun r => (StrItem.lit x :: r.1, r.2)) := by
  rw [scanString_cons]
  simp [h, he, hx]

theorem scanString_u (bs u a b c d : Char) (n : Nat) (cs : List Char) (h : bs.toNat = 0x5c)
    (hu : u.toNat = 0x75) (hn : getu4 a b c d = some n) :
    scanString (bs :: u :: a :: b :: c :: d :: cs) =
      (scanString cs).map (fun r => (StrItem.esc n :: r.1, r.2)) := by
  rw [scanString_cons]
  simp [h, hu, hn]

theorem scanString_lit (c : Char) (cs : List Char) (h1 : c.toNat ≠ 0x22)
    (h2 : c.toNat ≠ 0x5c) (h3 : ¬ c.toNat < 0x20) :
    scanString (c :: cs) =
      (scanString cs).map (fun r => (StrItem.lit c :: r.1, r.2)) := by
  rw [scanString_cons]
  simp [h1, h2, h3]

theorem char_eq_of_toNat (c : Char) (n : Nat) (h : c.toNat = n) : c = Char.ofNat n := by
  rw [← h, Char.ofNat_toNat]

theorem scanString_named (c e : Char) (k : Nat) (tail : List Char) (hc : c.toNat = k)
    (he : e.toNat ≠ 0x75) (hx : simpleEscape e = some (Char.ofNat k)) :
    scanString (Char.ofNat 0x5c :: e :: tail) =
      (scanString tail).map (fun r => (StrItem.lit c :: r.1, r.2)) := by
  rw [char_eq_of_toNat c k hc]
  exact scanString_simple _ _ _ _ bs_toNat he hx

theorem scanString_appendRune (c : Char) (tail : List Char) :
    scanString (appendRune c ++ tail) =
      (scanString tail).map (fun r => (itemOf c :: r.1, r.2)) := by
  unfold appendRune itemOf
  simp only []
  by_cases h1 : c.toNat = 0x5c ∨ c.toNat = 0x22
  · have hx : simpleEscape c = some c := by
      rcases h1 with h | h <;> simp [simpleEscape, h]
    have he : c.toNat ≠ 0x75 := by rcases h1 with h | h <;> omega
    have hi : (c.toNat = 0x5c ∨ c.toNat = 0x22 ∨ c.toNat = 0x08 ∨ c.toNat = 0x0c ∨
        c.toNat = 0x0a ∨ c.toNat = 0x0d ∨ c.toNat = 0x09) := by omega
    rw [if_pos h1, if_pos hi]
    exact scanString_simple _ _ _ _ bs_toNat he hx
  rw [if_neg h1]
  by_cases h2 : c.toNat = 0x08
  · have hi : (c.toNat = 0x5c ∨ c.toNat = 0x22 ∨ c.toNat = 0x08 ∨ c.toNat = 0x0c ∨
        c.toNat = 0x0a ∨ c.toNat = 0x0d ∨ c.toNat = 0x09) := by omega
    rw [if_pos h2, if_pos hi]
    exact scanString_named c 'b' _ tail h2 (by decide) (by decide)
  rw [if_neg h2]
  by_cases h3 : c.toNat = 0x0c
  · have hi : (c.toNat = 0x5c ∨ c.toNat = 0x22 ∨ c.toNat = 0x08 ∨ c.toNat = 0x0c ∨
        c.toNat = 0x0a ∨ c.toNat = 0x0d ∨ c.toNat = 0x09) := by omega
    rw [if_pos h3, if_pos hi]
    exact scanString_named c 'f' _ tail h3 (by decide) (by decide)
  rw [if_neg h3]
  by_cases h4 : c.toNat = 0x0a
  · have hi : (c.toNat = 0x5c ∨ c.toNat = 0x22 ∨ c.toNat = 0x08 ∨ c.toNat = 0x0c ∨
        c.toNat = 0x0a ∨ c.toNat = 0x0d ∨ c.toNat = 0x09) := by omega
    rw [if_pos h4, if_pos hi]
    exact scanString_named c 'n' _ tail h4 (by decide) (by decide)
  rw [if_neg h4]
  by_cases h5 : c.toNat = 0x0d
  · have hi : (c.toNat = 0x5c ∨ c.toNat = 0x22 ∨ c.toNat = 0x08 ∨ c.toNat = 0x0c ∨
        c.toNat = 0x0a ∨ c.toNat = 0x0d ∨ c.toNat = 0x09) := by omega
    rw [if_pos h5, if_pos hi]
    exact scanString_named c 'r' _ tail h5 (by decide) (by decide)
  rw [if_neg h5]
  by_cases h6 : c.toNat = 0x09
  · have hi : (c.toNat = 0x5c ∨ c.toNat = 0x22 ∨ c.toNat = 0x08 ∨ c.toNat = 0x0c ∨
        c.toNat = 0x0a ∨ c.toNat = 0x0d ∨ c.toNat = 0x09) := by omega
    rw [if_pos h6, if_pos hi]
    exact scanString_named c 't' _ tail h6 (by decide) (by decide)
  have hi : ¬ (c.toNat = 0x5c ∨ c.toNat = 0x22 ∨ c.toNat = 0x08 ∨ c.toNat = 0x0c ∨
      c.toNat = 0x0a ∨ c.toNat = 0x0d ∨ c.toNat = 0x09) := by omega
  rw [if_neg h6, if_neg hi]
  by_cases h7 : c.toNat < 0x20 ∨ c.toNat = 0x3c ∨ c.toNat = 0x3e ∨ c.toNat = 0x26
  · have hj : c.toNat < 0x20 ∨ c.toNat = 0x3c ∨ c.toNat = 0x3e ∨ c.toNat = 0x26 ∨
        c.toNat = 0x2028 ∨ c.toNat = 0x2029 := by omega
    rw [if_pos h7, if_pos hj]
    exact scanString_u _ _ _ _ _ _ _ tail bs_toNat u_toNat (getu4_low _ (by omega))
  rw [if_neg h7]
  by_cases h8 : c.toNat = 0x2028 ∨ c.toNat = 0x2029
  · have hj : c.toNat < 0x20 ∨ c.toNat = 0x3c ∨ c.toNat = 0x3e ∨ c.toNat = 0x26 ∨
        c.toNat = 0x2028 ∨ c.toNat = 0x2029 := by omega
    rw [if_pos h8, if_pos hj]
    exact scanString_u _ _ _ _ _ _ _ tail bs_toNat u_toNat (getu4_202 _ h8)
  have hj : ¬ (c.toNat < 0x20 ∨ c.toNat = 0x3c ∨ c.toNat = 0x3e ∨ c.toNat = 0x26 ∨
      c.toNat = 0x2028 ∨ c.toNat = 0x2029) := by omega
  rw [if_neg h8, if_neg hj]
  exact scanString_lit c tail (by omega) (by omega) (by omega)

theorem unquote_itemOf (c : Char) (rest : List StrItem) :
    unquote (itemOf c :: rest) = c :: unquote rest := by
  unfold itemOf
  simp only []
  split_ifs with h1 h2
  · rfl
  · have hs : isHighSurrogate c.toNat = false ∧ isLowSurrogate c.toNat = false := by
      simp only [isHighSurrogate, isLowSurrogate]
      constructor <;> simp <;> omega
    cases rest with
    | nil => simp [unquote, hs.1, hs.2, Char.ofNat_toNat]
    | cons i rest =>
      cases i <;> simp [unquote, hs.1, hs.2, Char.ofNat_toNat]
  · rfl

theorem scanString_flatMap (src tail : List Char) :
    ∃ items, scanString (src.flatMap appendRune ++ Char.ofNat 0x22 :: tail) = some (items, tail)
      ∧ unquote items = src := by
  induction src with
  | nil => exact ⟨[], by simp [scanString_quote], rfl⟩
  | cons c src ih =>
    obtain ⟨items, h1, h2⟩ := ih
    refine ⟨itemOf c :: items, ?_, ?_⟩
    · rw [List.flatMap_cons, List.append_assoc, scanString_appendRune, h1]
      rfl
    · rw [unquote_itemOf, h2]



theorem quote_toNat : (Char.ofNat 0x22).toNat = 0x22 := by decide

theorem skipSpace_cons (c : Char) (cs : List Char) (h : isSpace c = false) :
    skipSpace (c :: cs) = c :: cs := by
  simp [skipSpace, h]

theorem parseValue_string (fuel depth : Nat) (src tail : List Char) :
    parseValue (fuel + 1) depth (appendString src ++ tail) =
      some (JValue.string (String.mk src), tail) := by
  obtain ⟨items, h1, h2⟩ := scanString_flatMap src tail
  simp only [appendString, List.cons_append, List.append_assoc, List.nil_append, List.singleton_append]
  rw [parseValue]
  simp only [quote_toNat, if_true, h1, Option.map_some', h2]

theorem parseMembers_comma (fuel depth : Nat) (key val rest : List Char) :
    parseMembers (fuel + 2) depth (appendString key ++ ':' :: (appendString val ++ ',' :: rest)) =
      (parseMembers (fuel + 1) depth (skipSpace rest)).map
        (fun r => ((String.mk key, JValue.string (String.mk val)) :: r.1, r.2)) := by
  obtain ⟨items, h1, h2⟩ := scanString_flatMap key (':' :: (appendString val ++ ',' :: rest))
  have hc : skipSpace (':' :: (appendString val ++ ',' :: rest)) =
      ':' :: (appendString val ++ ',' :: rest) := skipSpace_cons _ _ (by decide)
  have hv : skipSpace (appendString val ++ ',' :: rest) = appendString val ++ ',' :: rest := by
    simp only [appendString, List.cons_append]
    exact skipSpace_cons _ _ (by decide)
  have hk : appendString key ++ ':' :: (appendString val ++ ',' :: rest) =
      Char.ofNat 0x22 :: (key.flatMap appendRune ++
        Char.ofNat 0x22 :: ':' :: (appendString val ++ ',' :: rest)) := by
    simp [appendString]
  have hs : skipSpace (',' :: rest) = ',' :: rest := skipSpace_cons _ _ (by decide)
  have h3 : ':'.toNat = 0x3a := by decide
  have h4 : ','.toNat = 0x2c := by decide
  rw [hk, parseMembers]
  simp only [quote_toNat, if_true, h1, hc, h3, hv, parseValue_string, hs, h4, h2]

theorem parseMembers_last (fuel depth : Nat) (key val rest : List Char) :
    parseMembers (fuel + 2) depth
        (appendString key ++ ':' :: (appendString val ++ Char.ofNat 0x7d :: rest)) =
      some ([(String.mk key, JValue.string (String.mk val))], rest) := by
  obtain ⟨items, h1, h2⟩ :=
    scanString_flatMap key (':' :: (appendString val ++ Char.ofNat 0x7d :: rest))
  have hc : skipSpace (':' :: (appendString val ++ Char.ofNat 0x7d :: rest)) =
      ':' :: (appendString val ++ Char.ofNat 0x7d :: rest) := skipSpace_cons _ _ (by decide)
  have hv : skipSpace (appendString val ++ Char.ofNat 0x7d :: rest) =
      appendString val ++ Char.ofNat 0x7d :: rest := by
    simp only [appendString, List.cons_append]
    exact skipSpace_cons _ _ (by decide)
  have hk : appendString key ++ ':' :: (appendString val ++ Char.ofNat 0x7d :: rest) =
      Char.ofNat 0x22 :: (key.flatMap appendRune ++
        Char.ofNat 0x22 :: ':' :: (appendString val ++ Char.ofNat 0x7d :: rest)) := by
    simp [appendString]
  have hs : skipSpace (Char.ofNat 0x7d :: rest) = Char.ofNat 0x7d :: rest :=
    skipSpace_cons _ _ (by decide)
  have h3 : ':'.toNat = 0x3a := by decide
  have h4 : (Char.ofNat 0x7d).toNat = 0x7d := by decide
  rw [hk, parseMembers]
  simp only [quote_toNat, if_true, h1, hc, h3, hv, parseValue_string, hs, h4, h2]
  simp

theorem parseValue_encodeUser (fuel : Nat) (user : User) :
    parseValue (fuel + 5) 0 (encodeUser user) =
      some (JValue.object [("name", JValue.string user.name), ("email", JValue.string user.email),
        ("profileUrl", JValue.string user.profileUrl)], []) := by
  have h0 : (Char.ofNat 0x7b).toNat = 0x7b := by decide
  have hs : ∀ src tail, skipSpace (appendString src ++ tail) = appendString src ++ tail := by
    intro src tail
    simp only [appendString, List.cons_append]
    exact skipSpace_cons _ _ (by decide)
  have hq : ∀ src tail, appendString src ++ tail =
      Char.ofNat 0x22 :: (src.flatMap appendRune ++ Char.ofNat 0x22 :: tail) := by
    intro src tail
    simp [appendString]
  unfold encodeUser
  rw [parseValue]
  simp only [h0]
  rw [hs, hq "name".toList]
  simp only [quote_toNat]
  rw [← hq "name".toList]
  rw [parseMembers_comma, hs, parseMembers_comma, hs, parseMembers_last]
  simp [maxNestingDepth]

theorem jsonUnmarshal_jsonMarshal (user init : User) :
    jsonUnmarshal (jsonMarshal user).1 init = (user, none) := by
  have hl : ∃ n, 2 * (String.mk (encodeUser user)).length + 2 = n + 5 := by
    refine ⟨2 * (String.mk (encodeUser user)).length - 3, ?_⟩
    have : 2 ≤ (String.mk (encodeUser user)).length := by
      simp [encodeUser, appendString, String.length]
    omega
  obtain ⟨n, hn⟩ := hl
  have hs : skipSpace (encodeUser user) = encodeUser user := skipSpace_cons _ _ (by decide)
  unfold jsonUnmarshal jsonMarshal
  simp only [hn, hs, String.toList, parseValue_encodeUser]
  have f1 : fieldOf "name" = some Field.name := by decide
  have f2 : fieldOf "email" = some Field.email := by decide
  have f3 : fieldOf "profileUrl" = some Field.profileUrl := by decide
  simp [skipSpace, storeMember, f1, f2, f3, User.set]

/-! ## The parser never runs out of fuel -/

theorem skipSpace_length (cs : List Char) : (skipSpace cs).length ≤ cs.length := by
  induction cs with
  | nil => simp [skipSpace]
  | cons c cs ih =>
    simp only [skipSpace]
    split
    · simp only [List.length_cons]; omega
    · simp

theorem scanString_length (n : Nat) : ∀ (cs : List Char) (items : List StrItem)
    (rest : List Char), cs.length ≤ n → scanString cs = some (items, rest) →
    rest.length < cs.length := by
  induction n with
  | zero =>
    intro cs items rest hn h
    have : cs = [] := List.length_eq_zero.mp (by omega)
    subst this
    simp [scanString] at h
  | succ n ih =>
    intro cs items rest hn h
    cases cs with
    | nil => simp [scanString] at h
    | cons c cs =>
      rw [scanString_cons] at h
      simp only [List.length_cons] at hn ⊢
      split_ifs at h with h1 h2 h3
      · simp only [Option.some.injEq, Prod.mk.injEq] at h
        rw [← h.2]; omega
      · rcases cs with _ | ⟨e, cs1⟩
        · simp at h
        · simp only at h
          split_ifs at h with h4
          · rcases cs1 with _ | ⟨a, _ | ⟨b, _ | ⟨c2, _ | ⟨d, cs2⟩⟩⟩⟩ <;> simp only at h <;>
              try (exact absurd h (by simp))
            split at h
            · rcases hr : scanString cs2 with _ | ⟨it, r⟩
              · simp [hr] at h
              · simp only [hr, Option.map_some', Option.some.injEq, Prod.mk.injEq] at h
                have := ih cs2 it r (by simp only [List.length_cons] at hn; omega) hr
                rw [← h.2]
                simp only [List.length_cons]
                omega
            · simp at h
          · split at h
            · rcases hr : scanString cs1 with _ | ⟨it, r⟩
              · simp [hr] at h
              · simp only [hr, Option.map_some', Option.some.injEq, Prod.mk.injEq] at h
                have := ih cs1 it r (by simp only [List.length_cons] at hn; omega) hr
                rw [← h.2]
                simp only [List.length_cons]
                omega
            · simp at h
      · rcases hr : scanString cs with _ | ⟨it, r⟩
        · simp [hr] at h
        · simp only [hr, Option.map_some', Option.some.injEq, Prod.mk.injEq] at h
          have := ih cs it r (by omega) hr
          rw [← h.2]
          omega

theorem span_snd_length (p : Char → Bool) (cs : List Char) :
    (cs.span p).2.length ≤ cs.length := by
  have h := List.span_eq_take_drop p cs
  rw [h]
  simp only [List.dropWhile]
  exact (List.dropWhile_suffix p).length_le

theorem scanDigits_length (cs ds rest : List Char) (h : scanDigits cs = some (ds, rest)) :
    rest.length ≤ cs.length := by
  unfold scanDigits at h
  have hl := span_snd_length isDigit cs
  split at h
  · simp at h
  · next ds1 rest1 _ heq =>
    simp only [Option.some.injEq, Prod.mk.injEq] at h
    rw [heq] at hl
    rw [← h.2]
    exact hl

theorem scanExp_length (cs lit rest : List Char) (h : scanExp cs = some (lit, rest)) :
    rest.length ≤ cs.length := by
  unfold scanExp at h
  split at h
  · next e r =>
    split_ifs at h
    · split at h
      · next sg r1 =>
        split_ifs at h
        · rcases hd : scanDigits r1 with _ | ⟨ds, r2⟩
          · simp [hd] at h
          · simp only [hd, Option.map_some', Option.some.injEq, Prod.mk.injEq] at h
            have := scanDigits_length _ _ _ hd
            rw [← h.2]
            simp only [List.length_cons]
            omega
        · rcases hd : scanDigits (sg :: r1) with _ | ⟨ds, r2⟩
          · simp [hd] at h
          · simp only [hd, Option.map_some', Option.some.injEq, Prod.mk.injEq] at h
            have := scanDigits_length _ _ _ hd
            rw [← h.2]
            simp only [List.length_cons] at this ⊢
            omega
      · simp at h
    · simp only [Option.some.injEq, Prod.mk.injEq] at h
      rw [← h.2]
  · simp only [Option.some.injEq, Prod.mk.injEq] at h
    rw [← h.2]

theorem scanFrac_length (cs lit rest : List Char) (h : scanFrac cs = some (lit, rest)) :
    rest.length ≤ cs.length := by
  unfold scanFrac at h
  split at h
  · next dot r =>
    split_ifs at h
    · rcases hd : scanDigits r with _ | ⟨ds, r2⟩
      · simp [hd] at h
      · simp only [hd, Option.map_some', Option.some.injEq, Prod.mk.injEq] at h
        have := scanDigits_length _ _ _ hd
        rw [← h.2]
        simp only [List.length_cons]
        omega
    · simp only [Option.some.injEq, Prod.mk.injEq] at h
      rw [← h.2]
  · simp only [Option.some.injEq, Prod.mk.injEq] at h
    rw [← h.2]

theorem scanInt_length (cs lit rest : List Char) (h : scanInt cs = some (lit, rest)) :
    rest.length < cs.length := by
  unfold scanInt at h
  split at h
  · next d r =>
    split_ifs at h
    · simp only [Option.some.injEq, Prod.mk.injEq] at h
      rw [← h.2]; simp
    · simp only [Option.some.injEq, Prod.mk.injEq] at h
      have := span_snd_length isDigit r
      rw [← h.2]
      simp only [List.length_cons]
      omega
  · simp at h

theorem scanSign_length (cs : List Char) : (scanSign cs).2.length ≤ cs.length := by
  unfold scanSign
  split
  · split_ifs <;> simp
  · simp

theorem scanNumber_length (cs lit rest : List Char) (h : scanNumber cs = some (lit, rest)) :
    rest.length < cs.length := by
  unfold scanNumber at h
  have hs := scanSign_length cs
  rcases hi : scanInt (scanSign cs).2 with _ | ⟨int, r1⟩
  · simp [hi] at h
  · rcases hf : scanFrac r1 with _ | ⟨frac, r2⟩
    · simp [hi, hf] at h
    · rcases he : scanExp r2 with _ | ⟨exp, r3⟩
      · simp [hi, hf, he] at h
      · simp only [hi, hf, he, Option.some.injEq, Prod.mk.injEq] at h
        have h1 := scanInt_length _ _ _ hi
        have h2 := scanFrac_length _ _ _ hf
        have h3 := scanExp_length _ _ _ he
        rw [← h.2]
        omega

theorem stripLiteral_length (lit cs rest : List Char) (h : stripLiteral lit cs = some rest) :
    rest.length + lit.length = cs.length := by
  induction lit generalizing cs with
  | nil =>
    simp only [stripLiteral, Option.some.injEq] at h
    simp [h]
  | cons l lit ih =>
    cases cs with
    | nil => simp [stripLiteral] at h
    | cons c cs =>
      simp only [stripLiteral] at h
      split_ifs at h
      have := ih cs h
      simp only [List.length_cons]
      omega

theorem scanString_rest (cs : List Char) (items : List StrItem) (rest : List Char)
    (h : scanString cs = some (items, rest)) : rest.length < cs.length :=
  scanString_length cs.length cs items rest (Nat.le_refl _) h

theorem parse_length (fuel : Nat) : ∀ (depth : Nat) (cs : List Char),
    (∀ v rest, parseValue fuel depth cs = some (v, rest) → rest.length < cs.length) ∧
    (∀ vs rest, parseElems fuel depth cs = some (vs, rest) → rest.length < cs.length) ∧
    (∀ ms rest, parseMembers fuel depth cs = some (ms, rest) → rest.length < cs.length) := by
  induction fuel with
  | zero =>
    intro depth cs
    refine ⟨?_, ?_, ?_⟩ <;> intro a rest h
    · simp [parseValue] at h
    · simp [parseElems] at h
    · simp [parseMembers] at h
  | succ fuel ih =>
    intro depth cs
    refine ⟨?_, ?_, ?_⟩
    · intro v rest h
      rcases cs with _ | ⟨c, cs1⟩
      · simp [parseValue] at h
      rw [parseValue] at h
      split_ifs at h with h1 h2 h3 h4 h5 h6 h7 h8
      · rcases hr : scanString cs1 with _ | ⟨it, r⟩
        · simp [hr] at h
        · simp only [hr, Option.map_some', Option.some.injEq, Prod.mk.injEq] at h
          have := scanString_rest _ _ _ hr
          rw [← h.2]; simp only [List.length_cons]; omega
      · have hk := skipSpace_length cs1
        rcases hsk : skipSpace cs1 with _ | ⟨d, rest1⟩
        · simp [hsk] at h
        · rw [hsk] at hk
          simp only [hsk] at h
          split_ifs at h with h9
          · simp only [Option.some.injEq, Prod.mk.injEq] at h
            rw [← h.2]; simp only [List.length_cons] at hk ⊢; omega
          · rcases hr : parseMembers fuel (depth + 1) (d :: rest1) with _ | ⟨ms, r⟩
            · simp [hr] at h
            · simp only [hr, Option.map_some', Option.some.injEq, Prod.mk.injEq] at h
              have := (ih (depth + 1) (d :: rest1)).2.2 ms r hr
              rw [← h.2]; simp only [List.length_cons] at hk this ⊢; omega
      · have hk := skipSpace_length cs1
        rcases hsk : skipSpace cs1 with _ | ⟨d, rest1⟩
        · simp [hsk] at h
        · rw [hsk] at hk
          simp only [hsk] at h
          split_ifs at h with h9
          · simp only [Option.some.injEq, Prod.mk.injEq] at h
            rw [← h.2]; simp only [List.length_cons] at hk ⊢; omega
          · rcases hr : parseElems fuel (depth + 1) (d :: rest1) with _ | ⟨ms, r⟩
            · simp [hr] at h
            · simp only [hr, Option.map_some', Option.some.injEq, Prod.mk.injEq] at h
              have := (ih (depth + 1) (d :: rest1)).2.1 ms r hr
              rw [← h.2]; simp only [List.length_cons] at hk this ⊢; omega
      · rcases hr : stripLiteral ['t', 'r', 'u', 'e'] (c :: cs1) with _ | r
        · simp [hr] at h
        · simp only [hr, Option.map_some', Option.some.injEq, Prod.mk.injEq] at h
          have := stripLiteral_length _ _ _ hr
          rw [← h.2]; simp only [List.length_cons] at this ⊢; omega
      · rcases hr : stripLiteral ['f', 'a', 'l', 's', 'e'] (c :: cs1) with _ | r
        · simp [hr] at h
        · simp only [hr, Option.map_some', Option.some.injEq, Prod.mk.injEq] at h
          have := stripLiteral_length _ _ _ hr
          rw [← h.2]; simp only [List.length_cons] at this ⊢; omega
      · rcases hr : stripLiteral ['n', 'u', 'l', 'l'] (c :: cs1) with _ | r
        · simp [hr] at h
        · simp only [hr, Option.map_some', Option.some.injEq, Prod.mk.injEq] at h
          have := stripLiteral_length _ _ _ hr
          rw [← h.2]; simp only [List.length_cons] at this ⊢; omega
      · rcases hr : scanNumber (c :: cs1) with _ | ⟨lit, r⟩
        · simp [hr] at h
        · simp only [hr, Option.map_some', Option.some.injEq, Prod.mk.injEq] at h
          have := scanNumber_length _ _ _ hr
          rw [← h.2]; exact this
    · intro vs rest h
      rw [parseElems] at h
      rcases hv : parseValue fuel depth cs with _ | ⟨v, r⟩
      · simp [hv] at h
      simp only [hv] at h
      have h1 := (ih depth cs).1 v r hv
      have hk := skipSpace_length r
      rcases hsk : skipSpace r with _ | ⟨c, rest1⟩
      · simp [hsk] at h
      rw [hsk] at hk
      simp only [hsk] at h
      split_ifs at h with h2 h3
      · rcases hr : parseElems fuel depth (skipSpace rest1) with _ | ⟨es, r2⟩
        · simp [hr] at h
        · simp only [hr, Option.map_some', Option.some.injEq, Prod.mk.injEq] at h
          have := (ih depth (skipSpace rest1)).2.1 es r2 hr
          have := skipSpace_length rest1
          rw [← h.2]; simp only [List.length_cons] at hk; omega
      · simp only [Option.some.injEq, Prod.mk.injEq] at h
        rw [← h.2]; simp only [List.length_cons] at hk; omega
    · intro ms rest h
      rcases cs with _ | ⟨q, cs1⟩
      · simp [parseMembers] at h
      rw [parseMembers] at h
      split_ifs at h with h1
      rcases hq : scanString cs1 with _ | ⟨key, r1⟩
      · simp [hq] at h
      simp only [hq] at h
      have hq1 := scanString_rest _ _ _ hq
      have hk1 := skipSpace_length r1
      rcases hsk1 : skipSpace r1 with _ | ⟨colon, r2⟩
      · simp [hsk1] at h
      rw [hsk1] at hk1
      simp only [hsk1] at h
      split_ifs at h with h2
      have hk2 := skipSpace_length r2
      rcases hv : parseValue fuel depth (skipSpace r2) with _ | ⟨v, r3⟩
      · simp [hv] at h
      simp only [hv] at h
      have hv1 := (ih depth (skipSpace r2)).1 v r3 hv
      have hk3 := skipSpace_length r3
      rcases hsk3 : skipSpace r3 with _ | ⟨c, r4⟩
      · simp [hsk3] at h
      rw [hsk3] at hk3
      simp only [hsk3] at h
      split_ifs at h with h3 h4
      · rcases hr : parseMembers fuel depth (skipSpace r4) with _ | ⟨es, r5⟩
        · simp [hr] at h
        · simp only [hr, Option.map_some', Option.some.injEq, Prod.mk.injEq] at h
          have := (ih depth (skipSpace r4)).2.2 es r5 hr
          have := skipSpace_length r4
          rw [← h.2]; simp only [List.length_cons] at hk1 hk3 ⊢; omega
      · simp only [Option.some.injEq, Prod.mk.injEq] at h
        rw [← h.2]; simp only [List.length_cons] at hk1 hk3 ⊢; omega

theorem parse_fuel_succ (fuel : Nat) : ∀ (depth : Nat) (cs : List Char),
    (2 * cs.length ≤ fuel → parseValue (fuel + 1) depth cs = parseValue fuel depth cs) ∧
    (2 * cs.length + 1 ≤ fuel → parseElems (fuel + 1) depth cs = parseElems fuel depth cs) ∧
    (2 * cs.length + 1 ≤ fuel →
      parseMembers (fuel + 1) depth cs = parseMembers fuel depth cs) := by
  induction fuel with
  | zero =>
    intro depth cs
    refine ⟨?_, ?_, ?_⟩ <;> intro h
    · have : cs = [] := List.length_eq_zero.mp (by omega)
      subst this
      simp [parseValue]
    · omega
    · omega
  | succ fuel ih =>
    intro depth cs
    refine ⟨?_, ?_, ?_⟩ <;> intro h
    · rcases cs with _ | ⟨c, cs1⟩
      · simp [parseValue]
      simp only [List.length_cons] at h
      have hk := skipSpace_length cs1
      rw [parseValue, parseValue]
      rcases hsk : skipSpace cs1 with _ | ⟨d, rest1⟩
      · rfl
      · rw [hsk] at hk
        simp only [List.length_cons] at hk
        simp only
        rw [(ih (depth + 1) (d :: rest1)).2.2 (by simp only [List.length_cons]; omega),
          (ih (depth + 1) (d :: rest1)).2.1 (by simp only [List.length_cons]; omega)]
    · rw [parseElems, parseElems, (ih depth cs).1 (by omega)]
      rcases hv : parseValue fuel depth cs with _ | ⟨v, r⟩
      · rfl
      have h1 := (parse_length fuel depth cs).1 v r hv
      have hk := skipSpace_length r
      simp only
      rcases hsk : skipSpace r with _ | ⟨c, rest1⟩
      · rfl
      rw [hsk] at hk
      simp only [List.length_cons] at hk
      have hk1 := skipSpace_length rest1
      simp only
      rw [(ih depth (skipSpace rest1)).2.1 (by omega)]
    · rcases cs with _ | ⟨q, cs1⟩
      · simp [parseMembers]
      simp only [List.length_cons] at h
      rw [parseMembers, parseMembers]
      rcases hq : scanString cs1 with _ | ⟨key, r1⟩
      · rfl
      have hq1 := scanString_rest _ _ _ hq
      have hk1 := skipSpace_length r1
      simp only
      rcases hsk1 : skipSpace r1 with _ | ⟨colon, r2⟩
      · rfl
      rw [hsk1] at hk1
      simp only [List.length_cons] at hk1
      have hk2 := skipSpace_length r2
      simp only
      rw [(ih depth (skipSpace r2)).1 (by omega)]
      rcases hv : parseValue fuel depth (skipSpace r2) with _ | ⟨v, r3⟩
      · rfl
      have hv1 := (parse_length fuel depth _).1 v r3 hv
      have hk3 := skipSpace_length r3
      simp only
      rcases hsk3 : skipSpace r3 with _ | ⟨c, r4⟩
      · rfl
      rw [hsk3] at hk3
      simp only [List.length_cons] at hk3
      have hk4 := skipSpace_length r4
      simp only
      rw [(ih depth (skipSpace r4)).2.2 (by omega)]

theorem parseValue_fuel (depth : Nat) (cs : List Char) (extra : Nat) :
    parseValue (2 * cs.length + extra) depth cs = parseValue (2 * cs.length) depth cs := by
  induction extra with
  | zero => rfl
  | succ k ih =>
    rw [← Nat.add_assoc, (parse_fuel_succ (2 * cs.length + k) depth cs).1 (by omega), ih]

/-- More fuel than `2 * length` never changes what the parser returns: the
fuel `jsonUnmarshal` passes is enough for every input. -/
theorem parseValue_enough (fuel depth : Nat) (cs : List Char) (h : 2 * cs.length ≤ fuel) :
    parseValue fuel depth cs = parseValue (2 * cs.length) depth cs := by
  obtain ⟨k, rfl⟩ := Nat.exists_eq_add_of_le h
  exact parseValue_fuel depth cs k

theorem jsonUnmarshal_fuel (data : String) (extra : Nat) :
    parseValue (2 * data.length + 2 + extra) 0 (skipSpace data.toList) =
      parseValue (2 * data.length + 2) 0 (skipSpace data.toList) := by
  have hl : (skipSpace data.toList).length ≤ data.length := skipSpace_length data.toList
  rw [parseValue_enough _ 0 _ (by omega), parseValue_enough (2 * data.length + 2) 0 _ (by omega)]

/-! ## The codec on concrete inputs -/

theorem jsonMarshal_ann :
    (jsonMarshal ann).1 =
      "\x7b\"name\":\"Ann\",\"email\":\"ann@x.com\",\"profileUrl\":\"http://x.com/ann\"\x7d" := by
  decide

theorem jsonMarshal_escapes :
    (jsonMarshal ⟨"a\"b<c\n", "", "\\"⟩).1 =
      "\x7b\"name\":\"a\\\"b\\u003cc\\n\",\"email\":\"\",\"profileUrl\":\"\\\\\"\x7d" := by
  decide

theorem jsonUnmarshal_loose :
    jsonUnmarshal " \x7b \"NAME\" : \"A\\u00e9\", \"tags\" : [1, \x7b\"x\":null\x7d], \"email\":null \x7d "
      ⟨"n", "e", "p"⟩ = (⟨"Aé", "e", "p"⟩, none) := by
  decide

theorem jsonUnmarshal_type_error :
    jsonUnmarshal "\x7b\"name\":5,\"email\":\"e@x\"\x7d" ⟨"", "", ""⟩ =
      (⟨"", "e@x", ""⟩, some JsonError.unmarshalTypeError) := by
  decide

theorem jsonUnmarshal_syntax_error :
    jsonUnmarshal "\x7b\"name\":\"Ann\"" ⟨"", "", ""⟩ =
      (⟨"", "", ""⟩, some JsonError.syntaxError) := by
  decide

/-! ## What each route does, path by path -/

theorem Store.set_apply (store : Store) (key value k : String) :
    store.set key value k = if k = key then some value else store k := rfl

theorem Store.del_apply (store : Store) (key k : String) :
    store.del key k = if k = key then none else store k := rfl

theorem Store.set_same (store : Store) (key value : String) :
    store.set key value key = some value := by
  simp [Store.set]

theorem Store.del_same (store : Store) (key : String) : store.del key key = none := by
  simp [Store.del]

theorem serve_ping (redisClient : RedisClient) (uuid : String) (store : Store) :
    serve redisClient uuid Request.ping store =
      Result.ok () { ctx := ⟨200, true, [pongBody]⟩, store := store, calls := [],
                     stdout := [], stderr := [] } := rfl

theorem serve_create_ok (store : Store) (u : User) (sid : String) :
    serve ⟨none⟩ sid (Request.create (Except.ok u)) store =
      Result.ok () { ctx := ⟨201, true, [createdBody sid u]⟩,
                     store := store.set sid (jsonMarshal u).1,
                     calls := [StoreCall.set sid (jsonMarshal u).1],
                     stdout := [], stderr := [] } := rfl

theorem serve_create_fault (store : Store) (u : User) (sid : String) (e : Error) :
    serve ⟨some e⟩ sid (Request.create (Except.ok u)) store =
      Result.ok () { ctx := ⟨500, true, [Body.H [("message", Value.str e.Error)]]⟩,
                     store := store,
                     calls := [StoreCall.set sid (jsonMarshal u).1],
                     stdout := [[Arg.str "Error inserting user in Redis:", Arg.err e]],
                     stderr := [] } := rfl

theorem serve_create_bad (redisClient : RedisClient) (store : Store) (sid : String) (e : Error) :
    serve redisClient sid (Request.create (Except.error e)) store =
      Result.exit 1 { ctx := ⟨400, true, []⟩, store := store, calls := [], stdout := [],
                      stderr := [e.Error] } := rfl

theorem serve_update_bad (redisClient : RedisClient) (store : Store) (uuid id : String)
    (e : Error) :
    serve redisClient uuid (Request.update id (Except.error e)) store =
      Result.exit 1 { ctx := ⟨400, true, []⟩, store := store, calls := [], stdout := [],
                      stderr := [e.Error] } := rfl

theorem serve_update_ok (store : Store) (u : User) (uuid id : String) :
    serve ⟨none⟩ uuid (Request.update id (Except.ok u)) store =
      Result.ok () { ctx := ⟨200, true, [Body.user u]⟩,
                     store := store.set id (jsonMarshal u).1,
                     calls := [StoreCall.set id (jsonMarshal u).1],
                     stdout := [], stderr := [] } := rfl

theorem serve_update_fault (store : Store) (u : User) (uuid id : String) (e : Error) :
    serve ⟨some e⟩ uuid (Request.update id (Except.ok u)) store =
      Result.ok () { ctx := ⟨200, true, [Body.user u]⟩,
                     store := store,
                     calls := [StoreCall.set id (jsonMarshal u).1],
                     stdout := [[Arg.str "Unable to update redis value"]], stderr := [] } := rfl

theorem serve_delete_ok (store : Store) (uuid id : String) :
    serve ⟨none⟩ uuid (Request.delete id) store =
      Result.ok () { ctx := ⟨200, true, [removedBody]⟩,
                     store := store.del id,
                     calls := [StoreCall.del id],
                     stdout := [[Arg.str "User deleted: ", Arg.str id]], stderr := [] } := rfl

theorem serve_delete_fault (store : Store) (uuid id : String) (e : Error) :
    serve ⟨some e⟩ uuid (Request.delete id) store =
      Result.ok () { ctx := ⟨200, false, []⟩,
                     store := store,
                     calls := [StoreCall.del id],
                     stdout := [[Arg.str "Error deleting key:", Arg.err e]], stderr := [] } := rfl

theorem serve_read_fault (store : Store) (uuid id : String) (e : Error) :
    serve ⟨some e⟩ uuid (Request.read id) store =
      Result.ok () { ctx := ⟨404, true, [notFoundBody id]⟩,
                     store := store,
                     calls := [StoreCall.get id],
                     stdout := [[Arg.str "User not found", Arg.str id]], stderr := [] } := rfl

theorem serve_read_absent (store : Store) (uuid id : String) (h : store id = none) :
    serve ⟨none⟩ uuid (Request.read id) store =
      Result.ok () { ctx := ⟨404, true, [notFoundBody id]⟩,
                     store := store,
                     calls := [StoreCall.get id],
                     stdout := [[Arg.str "User not found", Arg.str id]], stderr := [] } := by
  simp [serve, setUpRouter, bind, RedisClient.Get, h, Println, ctxJSON, Ctx.WriteHeader,
    StatusNotFound, pure, notFoundBody, bodyAllowedForStatus]

theorem serve_read_present (store : Store) (uuid id val : String) (h : store id = some val) :
    serve ⟨none⟩ uuid (Request.read id) store =
      match jsonUnmarshal val ⟨"", "", ""⟩ with
      | (_, some err) =>
        Result.ok () { ctx := ⟨200, false, []⟩, store := store, calls := [StoreCall.get id],
                       stdout := [[Arg.str "Error unmarshalling user: ", Arg.jsonErr err]],
                       stderr := [] }
      | (user, none) =>
        Result.ok () { ctx := ⟨200, true, [readBody id user]⟩,
                       store := store, calls := [StoreCall.get id], stdout := [], stderr := [] } := by
  simp only [serve, setUpRouter, bind, RedisClient.Get, h]
  rcases hj : jsonUnmarshal val ⟨"", "", ""⟩ with ⟨user, _ | err⟩ <;>
    simp [hj, Println, ctxJSON, Ctx.WriteHeader, StatusOK, pure, readBody, bodyAllowedForStatus]

theorem serve_read_stored (uuid id : String) (u : User) (store : Store)
    (h : store id = some (jsonMarshal u).1) :
    serve ⟨none⟩ uuid (Request.read id) store =
      Result.ok () { ctx := ⟨200, true, [readBody id u]⟩,
                     store := store, calls := [StoreCall.get id], stdout := [], stderr := [] } := by
  rw [serve_read_present store uuid id _ h, jsonUnmarshal_jsonMarshal]

theorem notFound_ne_nilBranch (id : String) : notFoundBody id ≠ nilBranchBody id := by
  intro h
  have hl : ("User " ++ id ++ " Not found").length = ("User " ++ id ++ "Not found").length := by
    simp only [notFoundBody, nilBranchBody, Body.H.injEq, List.cons.injEq, Prod.mk.injEq,
      Value.str.injEq, and_true, true_and] at h
    rw [h]
  simp only [String.length_append] at hl
  have h1 : " Not found".length = 10 := by decide
  have h2 : "Not found".length = 9 := by decide
  omega

theorem nilBranch_not_written (redisClient : RedisClient) (uuid id : String) (store : Store) :
    nilBranchBody id ∉ (serve redisClient uuid (Request.read id) store).state.ctx.body := by
  obtain ⟨fault⟩ := redisClient
  cases fault with
  | some e =>
    rw [serve_read_fault]
    simpa [Result.state] using (notFound_ne_nilBranch id).symm
  | none =>
    cases hs : store id with
    | none =>
      rw [serve_read_absent _ _ _ hs]
      simpa [Result.state] using (notFound_ne_nilBranch id).symm
    | some val =>
      rw [serve_read_present _ _ _ _ hs]
      rcases jsonUnmarshal val ⟨"", "", ""⟩ with ⟨user, _ | err⟩ <;>
        simp [Result.state, nilBranchBody, readBody]

/-! ## The claims -/

/-- C1. Create-then-read round trip: on every store, for every body that
decodes to a user `u` and every minted identifier `sid`, when the store calls
succeed `POST /user/create` answers 201 with `sid` and the three fields, and
`GET /user/<sid>` served next on the resulting store answers 200 with the
same `sid` and `data` equal to `u`. -/
theorem create_then_read (store : Store) (u : User) (sid uuid : String) :
    (serve ⟨none⟩ sid (Request.create (Except.ok u)) store).response =
        some ⟨201, [Body.H [("sid", Value.str sid), ("name", Value.str u.name),
          ("email", Value.str u.email), ("profileUrl", Value.str u.profileUrl)]]⟩ ∧
    (serve ⟨none⟩ uuid (Request.read sid)
        (serve ⟨none⟩ sid (Request.create (Except.ok u)) store).state.store).response =
      some ⟨200, [Body.H [("sid", Value.str sid), ("data", Value.user u)]]⟩ := by
  refine ⟨rfl, ?_⟩
  rw [serve_create_ok]
  simp only [Result.state]
  rw [serve_read_stored uuid sid u _ (Store.set_same _ _ _)]
  rfl

/-- C2. Create postcondition: on every store, for every body that decodes to
a user `u` and every minted identifier `sid`, when the store SET succeeds
`POST /user/create` answers 201 with `sid` and the fields of `u`, makes the
single call `SET sid serialize(u)`, and the resulting store maps `sid` to
`serialize(u)` and every other key to its old value.  The identifier is the
minted one whatever the request holds. -/
theorem create_postcondition (store : Store) (u : User) (sid : String) :
    (serve ⟨none⟩ sid (Request.create (Except.ok u)) store).response =
        some ⟨201, [Body.H [("sid", Value.str sid), ("name", Value.str u.name),
          ("email", Value.str u.email), ("profileUrl", Value.str u.profileUrl)]]⟩ ∧
    (serve ⟨none⟩ sid (Request.create (Except.ok u)) store).state.calls =
        [StoreCall.set sid (jsonMarshal u).1] ∧
    ∀ k, (serve ⟨none⟩ sid (Request.create (Except.ok u)) store).state.store k =
        if k = sid then some (jsonMarshal u).1 else store k := by
  refine ⟨rfl, rfl, fun k => rfl⟩

/-- C3. Read of a missing key: when `id` is absent from the store, or the
store GET reports an error, `GET /user/<id>` answers 404 with the single
message `User <id> Not found` and leaves the store unchanged.  The payload of
the second not-found branch (the test against `redis.Nil`) is written for no
store state and no outcome of the store call. -/
theorem read_missing_not_found (redisClient : RedisClient) (uuid id : String) (store : Store)
    (h : store id = none ∨ redisClient.fault ≠ none) :
    (serve redisClient uuid (Request.read id) store).response =
        some ⟨404, [Body.H [("message", Value.str ("User " ++ id ++ " Not found"))]]⟩ ∧
    (serve redisClient uuid (Request.read id) store).state.store = store ∧
    ∀ (client : RedisClient) (uuid1 : String) (store1 : Store),
      Body.H [("message", Value.str ("User " ++ id ++ "Not found"))] ∉
        (serve client uuid1 (Request.read id) store1).state.ctx.body := by
  refine ⟨?_, ?_, fun client uuid1 store1 => nilBranch_not_written client uuid1 id store1⟩
  all_goals
    obtain ⟨fault⟩ := redisClient
    cases fault with
    | some e => rw [serve_read_fault]; rfl
    | none =>
      have hs : store id = none := by simpa using h
      rw [serve_read_absent _ _ _ hs]; rfl

/-- Witness of C3: an identifier that was never created, on the empty store. -/
theorem read_missing_not_found_witness :
    (serve ⟨none⟩ "" (Request.read "42") emptyStore).response =
        some ⟨404, [Body.H [("message", Value.str ("User " ++ "42" ++ " Not found"))]]⟩ ∧
    (serve ⟨none⟩ "" (Request.read "42") emptyStore).state.store = emptyStore ∧
    ∀ (client : RedisClient) (uuid1 : String) (store1 : Store),
      Body.H [("message", Value.str ("User " ++ "42" ++ "Not found"))] ∉
        (serve client uuid1 (Request.read "42") store1).state.ctx.body :=
  read_missing_not_found ⟨none⟩ "" "42" emptyStore (Or.inl rfl)

/-- C4. Update-then-read overwrite: on every store, for every identifier `id`
(present or not) and every body that decodes to a user `u`, when the store
calls succeed `PUT /user/update/<id>` answers 200 with `u`, the resulting
store maps `id` to `serialize(u)` and every other key to its old value, and
`GET /user/<id>` served next answers 200 with `data` equal to `u`, whatever
the store held at `id` before. -/
theorem update_then_read (store : Store) (u : User) (id uuid uuid1 : String) :
    (serve ⟨none⟩ uuid (Request.update id (Except.ok u)) store).response =
        some ⟨200, [Body.user u]⟩ ∧
    (∀ k, (serve ⟨none⟩ uuid (Request.update id (Except.ok u)) store).state.store k =
        if k = id then some (jsonMarshal u).1 else store k) ∧
    (serve ⟨none⟩ uuid1 (Request.read id)
        (serve ⟨none⟩ uuid (Request.update id (Except.ok u)) store).state.store).response =
      some ⟨200, [Body.H [("sid", Value.str id), ("data", Value.user u)]]⟩ := by
  refine ⟨rfl, fun k => rfl, ?_⟩
  rw [serve_update_ok]
  simp only [Result.state]
  rw [serve_read_stored uuid1 id u _ (Store.set_same _ _ _)]
  rfl

/-- C5. Delete-then-read: on every store and for every identifier `id`, after
`DELETE /user/<id>` with a successful store call the store has no value at
`id` and every other key keeps its value, and `GET /user/<id>` served next
answers 404 with the not-found message, whatever its store call reports. -/
theorem delete_then_read (store : Store) (id uuid uuid1 : String) (client : RedisClient) :
    (∀ k, (serve ⟨none⟩ uuid (Request.delete id) store).state.store k =
        if k = id then none else store k) ∧
    (serve client uuid1 (Request.read id)
        (serve ⟨none⟩ uuid (Request.delete id) store).state.store).response =
      some ⟨404, [Body.H [("message", Value.str ("User " ++ id ++ " Not found"))]]⟩ := by
  refine ⟨fun k => rfl, ?_⟩
  rw [serve_delete_ok]
  simp only [Result.state]
  obtain ⟨fault⟩ := client
  cases fault with
  | some e => rw [serve_read_fault]; rfl
  | none => rw [serve_read_absent _ _ _ (Store.del_same _ _)]; rfl

/-- C6, as the code has it: `DELETE /user/<id>` answers with status 200 on
every store and for every outcome of the store DEL; the body is the message
`User removed successfully` when the DEL reports no error (the key present or
not), and empty when the DEL reports an error. -/
theorem delete_response (redisClient : RedisClient) (uuid id : String) (store : Store) :
    (serve redisClient uuid (Request.delete id) store).response =
      some ⟨200, match redisClient.fault with
                 | none => [Body.H [("message", Value.str "User removed successfully")]]
                 | some _ => []⟩ := by
  obtain ⟨fault⟩ := redisClient
  cases fault <;> rfl

/-- C6 fails as stated: when the store DEL reports an error the response of
`DELETE /user/42` is 200 with an empty body, not the success message. -/
theorem delete_fault_writes_no_message :
    (serve ⟨some (Error.other "dial tcp: connection refused")⟩ "" (Request.delete "42")
        emptyStore).response = some ⟨200, []⟩ ∧
    (serve ⟨some (Error.other "dial tcp: connection refused")⟩ "" (Request.delete "42")
        emptyStore).response ≠
      some ⟨200, [Body.H [("message", Value.str "User removed successfully")]]⟩ := by
  rw [serve_delete_fault]
  exact ⟨rfl, by simp [Result.response]⟩

/-- C7, what the code does: when the body does not decode, both
`POST /user/create` and `PUT /user/update/<id>` stop at `log.Fatal`: the
process exits with status 1 after gin set status 400, no payload is written,
no store call is made and the client receives no response. -/
theorem malformed_body_exits (redisClient : RedisClient) (uuid id : String) (store : Store)
    (e : Error) :
    serve redisClient uuid (Request.create (Except.error e)) store =
        Result.exit 1 { ctx := ⟨400, true, []⟩, store := store, calls := [], stdout := [],
                        stderr := [e.Error] } ∧
    (serve redisClient uuid (Request.create (Except.error e)) store).response = none ∧
    serve redisClient uuid (Request.update id (Except.error e)) store =
        Result.exit 1 { ctx := ⟨400, true, []⟩, store := store, calls := [], stdout := [],
                        stderr := [e.Error] } ∧
    (serve redisClient uuid (Request.update id (Except.error e)) store).response = none :=
  ⟨rfl, rfl, rfl, rfl⟩

/-- C8. Create surfaces store failure: for every body that decodes to a user,
when the store SET fails with error `e`, `POST /user/create` answers 500 with
the message of `e`; the response is not the 201 response and no `sid` key is
written. -/
theorem create_store_failure (store : Store) (u : User) (sid : String) (e : Error) :
    (serve ⟨some e⟩ sid (Request.create (Except.ok u)) store).response =
        some ⟨500, [Body.H [("message", Value.str e.Error)]]⟩ ∧
    (serve ⟨some e⟩ sid (Request.create (Except.ok u)) store).response ≠
        some ⟨201, [createdBody sid u]⟩ ∧
    "sid" ∉ (serve ⟨some e⟩ sid (Request.create (Except.ok u))
        store).state.ctx.body.flatMap Body.keys := by
  rw [serve_create_fault]
  refine ⟨rfl, by simp [Result.response], ?_⟩
  simp [Result.state, Body.keys]

/-- C9. Update swallows store failure: for every identifier and every body
that decodes to a user `u`, `PUT /user/update/<id>` answers 200 with `u`
whether the store SET succeeds or fails. -/
theorem update_response_ignores_store (redisClient : RedisClient) (uuid id : String)
    (store : Store) (u : User) :
    (serve redisClient uuid (Request.update id (Except.ok u)) store).response =
      some ⟨200, [Body.user u]⟩ := by
  obtain ⟨fault⟩ := redisClient
  cases fault <;> rfl

/-- C10, as the code has it: `GET /ping` makes no store call, leaves the
store unchanged and answers 200 with `pong`; a read makes exactly one GET and
a delete exactly one DEL, and a create or an update whose body decodes makes
exactly one SET; all this for every store and every outcome of the store
call. -/
theorem store_call_count (redisClient : RedisClient) (uuid id : String) (store : Store)
    (u : User) :
    (serve redisClient uuid Request.ping store).state.calls = [] ∧
    (serve redisClient uuid Request.ping store).state.store = store ∧
    (serve redisClient uuid Request.ping store).response =
        some ⟨200, [Body.H [("message", Value.str "pong")]]⟩ ∧
    (serve redisClient uuid (Request.create (Except.ok u)) store).state.calls =
        [StoreCall.set uuid (jsonMarshal u).1] ∧
    (serve redisClient uuid (Request.read id) store).state.calls = [StoreCall.get id] ∧
    (serve redisClient uuid (Request.update id (Except.ok u)) store).state.calls =
        [StoreCall.set id (jsonMarshal u).1] ∧
    (serve redisClient uuid (Request.delete id) store).state.calls = [StoreCall.del id] := by
  obtain ⟨fault⟩ := redisClient
  refine ⟨rfl, rfl, rfl, ?_, ?_, ?_, ?_⟩
  · cases fault <;> rfl
  · cases fault with
    | some e => rfl
    | none =>
      cases hs : store id with
      | none => rw [serve_read_absent _ _ _ hs]; rfl
      | some val =>
        rw [serve_read_present _ _ _ _ hs]
        rcases jsonUnmarshal val ⟨"", "", ""⟩ with ⟨user, _ | err⟩ <;> rfl
  · cases fault <;> rfl
  · cases fault <;> rfl

/-- C10 fails as stated: a create request whose body does not decode makes no
store call. -/
theorem create_bad_body_no_store_call :
    (serve ⟨none⟩ "" (Request.create (Except.error (Error.other "unexpected EOF")))
        emptyStore).state.calls = [] ∧
    (serve ⟨none⟩ "" (Request.create (Except.error (Error.other "unexpected EOF")))
        emptyStore).state.calls.length ≠ 1 :=
  ⟨rfl, by decide⟩

end GoServer
